import Mathlib

/-!
Verification of the userconf scanner, parser and AST path logic.

The definitions below are a shallow embedding of src/userconf/scan.py,
src/userconf/parse.py and src/userconf/ast.py.  Source strings are
modelled as `List Char`; the scanner consumes a prefix of the list and
returns the remainder (the Python `Scanner` keeps an index into a fixed
string, which is equivalent).  Raised Python exceptions are modelled with
`Except`.  Loops in the Python code that are not structurally recursive
over the remaining input are rewritten as equivalent character-driven
recursions (noted at each definition).
-/

set_option maxRecDepth 40000

namespace Userconf

/-- TokenKind enumeration, scan.py lines 9-24. -/
inductive TokenKind where
  | BRACE_OPEN
  | BRACE_CLOSE
  | BRACK_OPEN
  | BRACK_CLOSE
  | COMMA
  | UNQUOTED_STRING
  | QUOTED_STRING
  | MULTILINE_STRING
deriving DecidableEq, Repr

/-- TokenKind.is_string, scan.py lines 19-24. -/
def TokenKind.is_string : TokenKind → Bool
  | .UNQUOTED_STRING => true
  | .QUOTED_STRING => true
  | .MULTILINE_STRING => true
  | _ => false

/-- Token._escape_string, scan.py lines 42-43: Python
`spelling.replace(chr(92) ++ "n", newline)` replaces each non-overlapping
occurrence of the two-character sequence backslash-n, left to right, by an
actual newline character. -/
def escape_string : List Char → List Char
  | '\\' :: 'n' :: rest => '\n' :: escape_string rest
  | c :: rest => c :: escape_string rest
  | [] => []

/-- Token, scan.py lines 26-65.  `spelling` is `none` exactly for the
non-string kinds (the constructor asserts this). -/
structure Token where
  kind : TokenKind
  spelling : Option (List Char)
  leading_newline : Bool
deriving DecidableEq, Repr

/-- Token.__init__, scan.py lines 27-40: for string kinds the stored
spelling is `_escape_string(spelling)`. -/
def mkToken (kind : TokenKind) (leading_newline : Bool) (spelling : Option (List Char)) : Token :=
  ⟨kind, if kind.is_string then spelling.map escape_string else spelling, leading_newline⟩

/-- ScanError, scan.py line 67, with one constructor per raise site of the
scanner.  `eof_in_quoted` corresponds to the raise at scan.py line 196,
which is unreachable (the loop condition at line 194 already checked
`not self.at_end`).  `fuel` is an artefact of the embedding of
`scan_all` and is never produced for sufficiently large fuel. -/
inductive ScanErr where
  | eof_in_quoted
  | newline_in_quoted
  | unrecognised (c : Char)
  | fuel
deriving DecidableEq, Repr

/-- Body of Scanner._skip_comment, scan.py lines 162-163: advance until a
newline (CRLF or LF) is accepted (consuming it) or end of input. -/
def skip_comment_body : List Char → List Char
  | [] => []
  | '\r' :: '\n' :: rest => rest
  | '\n' :: rest => rest
  | _ :: rest => skip_comment_body rest

/-- Scanner._ignore_leading, scan.py lines 167-183, fused into one
character-driven recursion.  The Python code repeats rounds of
`_skip_whitespace` / `_skip_newline` / `_skip_comment` until a round skips
nothing; that is extensionally the same as consuming characters while the
head is whitespace, a newline (CRLF or LF) or a comment introduced by a
semicolon (a comment runs to its terminating newline, consumed with it).
The first argument is true while inside a comment body; the Bool
accumulator becomes the leading_newline flag and is set by newlines and by
comments, exactly as in the Python code (line 176 and 181). -/
def ignore_leading_aux : Bool → Bool → List Char → List Char × Bool
  | true, flag, [] => ([], flag)
  | true, fl, '\r' :: '\n' :: rest => ignore_leading_aux false fl rest
  | true, fl, '\n' :: rest => ignore_leading_aux false fl rest
  | true, fl, _ :: rest => ignore_leading_aux true fl rest
  | false, flag, ' ' :: rest => ignore_leading_aux false flag rest
  | false, flag, '\t' :: rest => ignore_leading_aux false flag rest
  | false, _flag, '\r' :: '\n' :: rest => ignore_leading_aux false true rest
  | false, _flag, '\n' :: rest => ignore_leading_aux false true rest
  | false, _flag, ';' :: rest => ignore_leading_aux true true rest
  | false, flag, s => (s, flag)

/-- Scanner._ignore_leading entry point: returns the remaining input and
the leading_newline flag. -/
def ignore_leading (s : List Char) : List Char × Bool :=
  ignore_leading_aux false false s

/-- Loop of Scanner._scan_quoted_string, scan.py lines 193-205.  The loop
condition accepts an unescaped quote (ending the string) or stops at end
of input; note that reaching end of input ends the loop and the function
RETURNS the token (the `raise ScanError` for EOF at line 196 is dead code,
since the loop condition at line 194 already required `not self.at_end`).
Inside the body: a newline is a ScanError, a backslash-quote pair appends
a literal quote, any other character is appended verbatim. -/
def scan_quoted_loop (acc : List Char) : List Char → Except ScanErr (List Char × List Char)
  | [] => .ok (acc, [])
  | '"' :: rest => .ok (acc, rest)
  | '\r' :: '\n' :: _ => .error .newline_in_quoted
  | '\n' :: _ => .error .newline_in_quoted
  | '\\' :: '"' :: rest => scan_quoted_loop (acc ++ ['"']) rest
  | c :: rest => scan_quoted_loop (acc ++ [c]) rest

/-- Scanner._scan_quoted_string, scan.py lines 185-206: `none` when the
input does not start with a quote, otherwise the raw (pre-escape) content
and the remaining input, or a ScanErr. -/
def scan_quoted_string (s : List Char) : Option (Except ScanErr (List Char × List Char)) :=
  match s with
  | '"' :: rest => some (scan_quoted_loop [] rest)
  | _ => none

/-- Scanner._scan_multiline_string, scan.py lines 208-233, fused into one
character-driven recursion.  First argument true: inside a line body
(after an accepted greater-than sign), appending characters until the
line's newline (consumed, not captured) or end of input.  First argument
false: between lines, skipping pure whitespace and continuing on a
greater-than sign; anything else ends the multi-line string with the
whitespace consumed (Python consumes it via `_skip_whitespace` at line 230
before the failing line attempt). -/
def scan_multiline_aux : Bool → List Char → List Char → List Char × List Char
  | true, acc, [] => (acc, [])
  | true, acc, '\r' :: '\n' :: rest => scan_multiline_aux false acc rest
  | true, acc, '\n' :: rest => scan_multiline_aux false acc rest
  | true, acc, c :: rest => scan_multiline_aux true (acc ++ [c]) rest
  | false, acc, ' ' :: rest => scan_multiline_aux false acc rest
  | false, acc, '\t' :: rest => scan_multiline_aux false acc rest
  | false, acc, '>' :: rest => scan_multiline_aux true acc rest
  | false, acc, s => (acc, s)

/-- Scanner._scan_multiline_string entry, scan.py lines 219-233: `none`
when the input does not start with a greater-than sign; otherwise the
concatenated payload (join of the captured lines, no separator) and the
remaining input. -/
def scan_multiline_string : List Char → Option (List Char × List Char)
  | '>' :: rest => some (scan_multiline_aux true [] rest)
  | _ => none

/-- TERMINATORS test of Scanner._scan_unquoted_string, scan.py line 240:
WHITESPACE + NEWLINE + RESERVED, tested with `_test_any` (so CRLF is a
two-character test and a lone CR is NOT a terminator). -/
def unquoted_terminator : List Char → Bool
  | ' ' :: _ => true
  | '\t' :: _ => true
  | '\r' :: '\n' :: _ => true
  | '\n' :: _ => true
  | '{' :: _ => true
  | '}' :: _ => true
  | '[' :: _ => true
  | ']' :: _ => true
  | ',' :: _ => true
  | ';' :: _ => true
  | _ => false

/-- Loop of Scanner._scan_unquoted_string, scan.py lines 242-245. -/
def scan_unquoted_aux : List Char → List Char × List Char
  | [] => ([], [])
  | c :: rest =>
    if unquoted_terminator (c :: rest) then ([], c :: rest)
    else
      let r := scan_unquoted_aux rest
      (c :: r.1, r.2)

/-- Scanner._scan_unquoted_string, scan.py lines 235-250: `none` when zero
characters were collected. -/
def scan_unquoted_string (s : List Char) : Option (List Char × List Char) :=
  match scan_unquoted_aux s with
  | ([], _) => none
  | (content, rest) => some (content, rest)

/-- Scanner.scan_one, scan.py lines 258-288: skip leading insignificant
input, then end of input, single-character punctuation, quoted string,
multi-line string, unquoted string, otherwise a lexical error. -/
def scan_one (s : List Char) : Except ScanErr (Option Token × List Char) :=
  match ignore_leading s with
  | (s1, leading) =>
    match s1 with
    | [] => .ok (none, [])
    | '{' :: rest => .ok (some (mkToken .BRACE_OPEN leading none), rest)
    | '}' :: rest => .ok (some (mkToken .BRACE_CLOSE leading none), rest)
    | '[' :: rest => .ok (some (mkToken .BRACK_OPEN leading none), rest)
    | ']' :: rest => .ok (some (mkToken .BRACK_CLOSE leading none), rest)
    | ',' :: rest => .ok (some (mkToken .COMMA leading none), rest)
    | c :: cs =>
      match scan_quoted_string (c :: cs) with
      | some (.error e) => .error e
      | some (.ok (raw, rest)) => .ok (some (mkToken .QUOTED_STRING leading (some raw)), rest)
      | none =>
        match scan_multiline_string (c :: cs) with
        | some (raw, rest) => .ok (some (mkToken .MULTILINE_STRING leading (some raw)), rest)
        | none =>
          match scan_unquoted_string (c :: cs) with
          | some (raw, rest) => .ok (some (mkToken .UNQUOTED_STRING leading (some raw)), rest)
          | none => .error (.unrecognised c)

/-- Loop of Scanner.scan_all, scan.py lines 290-298, with fuel (each
successful `scan_one` consumes at least one character, so fuel
`s.length + 1` never runs out). -/
def scan_all_aux : Nat → List Char → Except ScanErr (List Token)
  | 0, _ => .error .fuel
  | fuel + 1, s =>
    match scan_one s with
    | .error e => .error e
    | .ok (none, _) => .ok []
    | .ok (some t, rest) =>
      match scan_all_aux fuel rest with
      | .error e => .error e
      | .ok ts => .ok (t :: ts)

/-- Scanner.scan_all, scan.py lines 290-298. -/
def scan_all (s : List Char) : Except ScanErr (List Token) :=
  scan_all_aux (s.length + 1) s

example : scan_all "a b".toList =
    .ok [mkToken .UNQUOTED_STRING false (some ['a']),
         mkToken .UNQUOTED_STRING false (some ['b'])] := rfl

example : scan_all "\x7ba b\x7d".toList =
    .ok [mkToken .BRACE_OPEN false none,
         mkToken .UNQUOTED_STRING false (some ['a']),
         mkToken .UNQUOTED_STRING false (some ['b']),
         mkToken .BRACE_CLOSE false none] := rfl

example : scan_all ">foo\n>bar".toList =
    .ok [mkToken .MULTILINE_STRING false (some "foobar".toList)] := rfl

example : scan_all "\"unterminated".toList =
    .ok [mkToken .QUOTED_STRING false (some "unterminated".toList)] := rfl

example : scan_one "\"a\\\"b\"".toList =
    .ok (some (mkToken .QUOTED_STRING false (some ['a', '"', 'b'])), []) := rfl

example : scan_all "a b\nc d".toList =
    .ok [mkToken .UNQUOTED_STRING false (some ['a']),
         mkToken .UNQUOTED_STRING false (some ['b']),
         mkToken .UNQUOTED_STRING true (some ['c']),
         mkToken .UNQUOTED_STRING false (some ['d'])] := rfl

/-!
AST embedding (src/userconf/ast.py).

The Python classes String, RecordItem, Record, Document and Array become
the constructors of one inductive type.  A RecordItem's two children are
its key (child index 0) and its value (child index 1), ast.py lines
139-148.  The Python parent back-references are recovered positionally: a
node of a tree is addressed by the list of child indices from the root,
and the ancestors of an addressed node are the nodes at the proper
prefixes of its address (parent first), matching AbstractNode._ancestors,
ast.py lines 16-25.  Python object identity (`self is self.parent.value`,
ast.py line 37) becomes "the last child index is 1", which agrees with
identity on every tree whose nodes are distinct objects, as all
parser-built trees are.
-/

inductive AST where
  | string (data : List Char)
  | recordItem (key : AST) (value : AST)
  | record (children : List AST)
  | document (children : List AST)
  | array (children : List AST)

/-- Children of a node: Node.children, ast.py lines 114-116; a RecordItem
holds key then value (ast.py lines 139-140); a String is a leaf. -/
def childrenOf : AST → List AST
  | .string _ => []
  | .recordItem k v => [k, v]
  | .record cs => cs
  | .document cs => cs
  | .array cs => cs

/-- True for the three classes checked by `isinstance(self, (String,
Record, Array))` at ast.py line 32, which is also the set of legal
RecordItem values and Array elements (ast.py lines 132 and 138). -/
def isValueKind : AST → Bool
  | .string _ => true
  | .record _ => true
  | .array _ => true
  | _ => false

/-- isinstance(node, Array). -/
def isArray : AST → Bool
  | .array _ => true
  | _ => false

/-- isinstance(node, RecordItem). -/
def isRecordItem : AST → Bool
  | .recordItem _ _ => true
  | _ => false

/-- isinstance(node, String). -/
def isString : AST → Bool
  | .string _ => true
  | _ => false

/-- Resolve an address to the addressed node together with its ancestors,
parent first (AbstractNode._ancestors, ast.py lines 16-25).  `none` when
the address does not name a node of the tree. -/
def ancestorsOf : AST → List Nat → Option (AST × List AST)
  | a, [] => some (a, [])
  | a, i :: rest =>
    match (childrenOf a)[i]? with
    | none => none
    | some c =>
      match ancestorsOf c rest with
      | none => none
      | some (n, anc) => some (n, anc ++ [a])

/-- AbstractNode._is_transitive_array_element, ast.py lines 9-14: some
ancestor is an Array. -/
def is_transitive_array_element (ancestors : List AST) : Bool :=
  ancestors.any isArray

/-- AbstractNode.has_path, ast.py lines 27-40, on the node addressed by
`pos` in `root`.  The outer `none` models a Python AttributeError: when
the node is a String that survives the first two checks but its parent is
absent (the node is the root) or is a Document or Record (classes without
a `value` property), `self.parent.value` at ast.py line 37 raises.  On
well-formed trees this never happens. -/
def has_path (root : AST) (pos : List Nat) : Option Bool :=
  match ancestorsOf root pos with
  | none => none
  | some (n, anc) =>
    if !(isValueKind n) || is_transitive_array_element anc then some false
    else
      match n with
      | .string _ =>
        match anc with
        | .recordItem _ _ :: _ => some (decide (pos.getLast? = some 1))
        | _ => none
      | _ => some true

/-- Key collection of AbstractNode.path, ast.py lines 50-56: walk the
ancestors parent first and append `node.parent.key.data` for every
RecordItem among them.  `none` models the AttributeError raised when such
a key is not a String (impossible for trees built by RecordItem.__init__,
which asserts it). -/
def keysUp : List AST → Option (List (List Char))
  | [] => some []
  | .recordItem (.string d) _ :: rest => (keysUp rest).map (fun l => d :: l)
  | .recordItem _ _ :: _ => none
  | _ :: rest => keysUp rest

/-- AbstractNode.path, ast.py lines 42-58.  Outer `none` models a raised
AttributeError; inner `none` is the Python `None` returned when the node
has no merge path; otherwise the reversed collected key list. -/
def path (root : AST) (pos : List Nat) : Option (Option (List (List Char))) :=
  match has_path root pos with
  | none => none
  | some false => some none
  | some true =>
    match ancestorsOf root pos with
    | none => none
    | some (_, anc) =>
      match keysUp anc with
      | none => none
      | some l => some (some l.reverse)

mutual

/-- Well-formedness of a tree, mirroring the constructor asserts of
ast.py: Document and Record children are RecordItems (lines 120 and 124),
a RecordItem key is a String and its value a String, Record or Array
(lines 137-138), Array children are Strings, Records or Arrays (line
132). -/
def wf : AST → Bool
  | .string _ => true
  | .recordItem k v => isString k && isValueKind v && wf k && wf v
  | .record cs => wfChildren isRecordItem cs
  | .document cs => wfChildren isRecordItem cs
  | .array cs => wfChildren isValueKind cs

/-- Each child satisfies the class check of the owner's `add_child`
assert and is itself well formed. -/
def wfChildren (ok : AST → Bool) : List AST → Bool
  | [] => true
  | c :: rest => ok c && wf c && wfChildren ok rest

end

/-!
Parser embedding (src/userconf/parse.py).

The Parser holds the token list and a cursor; each production takes the
cursor position `p` and returns `Except PErr (Option result × Nat)`:
`.error` models a raised ParseError, `.ok (none, p)` a ParseResult(False)
with the cursor restored by the `production` decorator (parse.py lines
20-31), and `.ok (some r, q)` a successful ParseResult with the new
cursor.  The mutually recursive productions carry a fuel argument, a
strictly decreasing artefact of the embedding; `.error .fuel` is never
produced when the fuel exceeds what the token list can consume, and the
top-level entry point `parse_document` supplies such a fuel.
-/

/-- ParseError, parse.py line 33, one constructor per raise site plus the
fuel artefact. -/
inductive PErr where
  | expected_at_eoi (k : TokenKind)
  | expected_found (k : TokenKind) (found : TokenKind)
  | expected_eoi (found : TokenKind)
  | fuel
deriving DecidableEq, Repr

/-- Parser._accept, parse.py lines 47-56: at end of input or on a kind
mismatch return False without moving; otherwise return the current token
and advance. -/
def paccept (toks : List Token) (p : Nat) (kind : TokenKind) : Option (Token × Nat) :=
  match toks[p]? with
  | none => none
  | some t => if t.kind = kind then some (t, p + 1) else none

/-- Parser._expect, parse.py lines 58-65: raise at end of input or on a
kind mismatch, otherwise advance past the expected token. -/
def pexpect (toks : List Token) (p : Nat) (kind : TokenKind) : Except PErr Nat :=
  match toks[p]? with
  | none => .error (.expected_at_eoi kind)
  | some t => if t.kind = kind then .ok (p + 1) else .error (.expected_found kind t.kind)

/-- Parser._accept_item_separator, parse.py lines 67-70: False at end of
input; otherwise accept (and consume) a COMMA, or succeed without
consuming anything when the current token has the leading_newline flag. -/
def accept_item_separator (toks : List Token) (p : Nat) : Bool × Nat :=
  match toks[p]? with
  | none => (false, p)
  | some t => if t.kind = .COMMA then (true, p + 1) else (t.leading_newline, p)

/-- Spelling of a string token (always present on string kinds). -/
def spellingD (t : Token) : List Char :=
  t.spelling.getD []

/-- Parser.parse_record_key, parse.py lines 146-156: a quoted or unquoted
string token becomes an ast.String of its spelling. -/
def parse_record_key (toks : List Token) (p : Nat) : Option (AST × Nat) :=
  match paccept toks p .QUOTED_STRING with
  | some (t, q) => some (.string (spellingD t), q)
  | none =>
    match paccept toks p .UNQUOTED_STRING with
    | some (t, q) => some (.string (spellingD t), q)
    | none => none

mutual

/-- Parser.parse_value, parse.py lines 158-174: quoted, unquoted or
multi-line string, else record, else array. -/
def parse_value (toks : List Token) : Nat → Nat → Except PErr (Option AST × Nat)
  | 0, _ => .error .fuel
  | fuel + 1, p =>
    match paccept toks p .QUOTED_STRING with
    | some (t, q) => .ok (some (.string (spellingD t)), q)
    | none =>
      match paccept toks p .UNQUOTED_STRING with
      | some (t, q) => .ok (some (.string (spellingD t)), q)
      | none =>
        match paccept toks p .MULTILINE_STRING with
        | some (t, q) => .ok (some (.string (spellingD t)), q)
        | none =>
          match parse_record toks fuel p with
          | .error e => .error e
          | .ok (some r, q) => .ok (some r, q)
          | .ok (none, _) =>
            match parse_array toks fuel p with
            | .error e => .error e
            | .ok (some a, q) => .ok (some a, q)
            | .ok (none, _) => .ok (none, p)
termination_by structural fuel _p => fuel

/-- Parser.parse_record, parse.py lines 94-109: BRACE_OPEN (else fail),
record content, then a required BRACE_CLOSE. -/
def parse_record (toks : List Token) : Nat → Nat → Except PErr (Option AST × Nat)
  | 0, _ => .error .fuel
  | fuel + 1, p =>
    match paccept toks p .BRACE_OPEN with
    | none => .ok (none, p)
    | some (_, q) =>
      match parse_record_content toks fuel q with
      | .error e => .error e
      | .ok (items, q₂) =>
        match pexpect toks q₂ .BRACE_CLOSE with
        | .error e => .error e
        | .ok q₃ => .ok (some (.record items), q₃)
termination_by structural fuel _p => fuel

/-- Parser.parse_record_content, parse.py lines 111-128: an optional
first record item followed by the separator-then-item loop; always
succeeds (possibly with an empty list) unless a nested production
raises. -/
def parse_record_content (toks : List Token) : Nat → Nat → Except PErr (List AST × Nat)
  | 0, _ => .error .fuel
  | fuel + 1, p =>
    match parse_record_item toks fuel p with
    | .error e => .error e
    | .ok (none, _) => .ok ([], p)
    | .ok (some it, q) => parse_record_content_loop toks fuel q [it]
termination_by structural fuel _p => fuel

/-- Loop of Parser.parse_record_content, parse.py lines 122-126: while a
separator is accepted, parse another item; the loop breaks (without
raising) when the item production fails. -/
def parse_record_content_loop (toks : List Token) : Nat → Nat → List AST → Except PErr (List AST × Nat)
  | 0, _, _ => .error .fuel
  | fuel + 1, q, acc =>
    match accept_item_separator toks q with
    | (false, _) => .ok (acc, q)
    | (true, q₂) =>
      match parse_record_item toks fuel q₂ with
      | .error e => .error e
      | .ok (none, _) => .ok (acc, q₂)
      | .ok (some it, q₃) => parse_record_content_loop toks fuel q₃ (acc ++ [it])
termination_by structural fuel _q _acc => fuel

/-- Parser.parse_record_item, parse.py lines 130-144: a record key then a
value; if either fails the whole item fails with the cursor restored. -/
def parse_record_item (toks : List Token) : Nat → Nat → Except PErr (Option AST × Nat)
  | 0, _ => .error .fuel
  | fuel + 1, p =>
    match parse_record_key toks p with
    | none => .ok (none, p)
    | some (k, q) =>
      match parse_value toks fuel q with
      | .error e => .error e
      | .ok (none, _) => .ok (none, p)
      | .ok (some v, q₂) => .ok (some (.recordItem k v), q₂)
termination_by structural fuel _p => fuel

/-- Parser.parse_array, parse.py lines 176-190: BRACK_OPEN (else fail),
array content, then a required BRACK_CLOSE. -/
def parse_array (toks : List Token) : Nat → Nat → Except PErr (Option AST × Nat)
  | 0, _ => .error .fuel
  | fuel + 1, p =>
    match paccept toks p .BRACK_OPEN with
    | none => .ok (none, p)
    | some (_, q) =>
      match parse_array_content toks fuel q with
      | .error e => .error e
      | .ok (vals, q₂) =>
        match pexpect toks q₂ .BRACK_CLOSE with
        | .error e => .error e
        | .ok q₃ => .ok (some (.array vals), q₃)
termination_by structural fuel _p => fuel

/-- Parser.parse_array_content, parse.py lines 192-208: an optional first
value followed by the separator-then-value loop. -/
def parse_array_content (toks : List Token) : Nat → Nat → Except PErr (List AST × Nat)
  | 0, _ => .error .fuel
  | fuel + 1, p =>
    match parse_value toks fuel p with
    | .error e => .error e
    | .ok (none, _) => .ok ([], p)
    | .ok (some v, q) => parse_array_content_loop toks fuel q [v]
termination_by structural fuel _p => fuel

/-- Loop of Parser.parse_array_content, parse.py lines 202-206. -/
def parse_array_content_loop (toks : List Token) : Nat → Nat → List AST → Except PErr (List AST × Nat)
  | 0, _, _ => .error .fuel
  | fuel + 1, q, acc =>
    match accept_item_separator toks q with
    | (false, _) => .ok (acc, q)
    | (true, q₂) =>
      match parse_value toks fuel q₂ with
      | .error e => .error e
      | .ok (none, _) => .ok (acc, q₂)
      | .ok (some v, q₃) => parse_array_content_loop toks fuel q₃ (acc ++ [v])
termination_by structural fuel _q _acc => fuel

end

/-- Parser.parse, parse.py lines 78-92: record content at the top level,
then the cursor must be at end of input, else a ParseError naming the
current token kind.  (The out-of-range fallback to `.error .fuel` is
unreachable: the cursor never moves past the end of the token list.) -/
def parse (toks : List Token) : Nat → Except PErr AST
  | 0 => .error .fuel
  | fuel + 1 =>
    match parse_record_content toks fuel 0 with
    | .error e => .error e
    | .ok (items, q) =>
      if q = toks.length then .ok (.document items)
      else
        match toks[q]? with
        | some t => .error (.expected_eoi t.kind)
        | none => .error .fuel

/-- Fuel that is always sufficient for `parse`: along any call chain at
least one token is consumed for every four fuel decrements. -/
def std_fuel (toks : List Token) : Nat :=
  4 * toks.length + 8

/-- Top-level parse at standard fuel. -/
def parse_document (toks : List Token) : Except PErr AST :=
  parse toks (std_fuel toks)

/-- The convenience pipeline of userconf/__init__.py `loads`: scan the
whole source, then parse the token list into a Document. -/
def loads (s : List Char) : Except ScanErr (Except PErr AST) :=
  match scan_all s with
  | .error e => .error e
  | .ok toks => .ok (parse_document toks)

example : loads "a b".toList =
    .ok (.ok (.document [.recordItem (.string ['a']) (.string ['b'])])) := rfl

example : loads "\x7ba b\x7d".toList =
    .ok (.error (.expected_eoi .BRACE_OPEN)) := rfl

example : loads "a \x7b b \"x\" \x7d".toList =
    .ok (.ok (.document [.recordItem (.string ['a'])
      (.record [.recordItem (.string ['b']) (.string ['x'])])])) := rfl

example : loads "a [ \"x\" \"y\" ]".toList =
    .ok (.error (.expected_found .BRACK_CLOSE .QUOTED_STRING)) := rfl

example : loads "a [ \"x\", \"y\" ]".toList =
    .ok (.ok (.document [.recordItem (.string ['a'])
      (.array [.string ['x'], .string ['y']])])) := rfl

/-!
Claim theorems.
-/

/-- C1: the claim says an unterminated quoted string is a lexical error;
the code disagrees (a code bug: the docstring of _scan_quoted_string and
the dead raise at scan.py line 196 show the error was intended, but the
loop condition at line 194 exits at end of input first).  On the claim's
failing input, both scan_one and scan_all succeed and return a
QUOTED_STRING token whose payload is the text after the open quote. -/
theorem C1_unterminated_quoted_yields_token :
    scan_one "\"unterminated".toList =
      .ok (some (mkToken .QUOTED_STRING false (some "unterminated".toList)), []) ∧
    scan_all "\"unterminated".toList =
      .ok [mkToken .QUOTED_STRING false (some "unterminated".toList)] ∧
    scan_quoted_string "\"unterminated".toList =
      some (.ok ("unterminated".toList, [])) :=
  ⟨rfl, rfl, rfl⟩

/-- C2 counterexample: the complete input with braces around the two bare
tokens does NOT parse successfully at the top level: the document grammar
is brace-free (parse.py lines 78-92 run parse_record_content directly),
so the leading BRACE_OPEN token begins no record item, record content is
empty, the cursor is not at end of input, and parse raises. -/
theorem C2_braced_input_counterexample :
    loads "\x7ba b\x7d".toList = .ok (.error (.expected_eoi .BRACE_OPEN)) :=
  rfl

/-- C2 amended: no separator is required between a record key and its
value.  The complete input of two bare tokens (without braces) scans and
parses successfully into a document with one record item, key a and value
b; and the braced form parses as a record through the record production
(the form it takes in value position), with the same single item. -/
theorem C2_key_value_without_separator :
    loads "a b".toList =
      .ok (.ok (.document [.recordItem (.string ['a']) (.string ['b'])])) ∧
    scan_all "\x7ba b\x7d".toList =
      .ok [mkToken .BRACE_OPEN false none,
           mkToken .UNQUOTED_STRING false (some ['a']),
           mkToken .UNQUOTED_STRING false (some ['b']),
           mkToken .BRACE_CLOSE false none] ∧
    parse_record
      [mkToken .BRACE_OPEN false none,
       mkToken .UNQUOTED_STRING false (some ['a']),
       mkToken .UNQUOTED_STRING false (some ['b']),
       mkToken .BRACE_CLOSE false none] 16 0 =
      .ok (some (.record [.recordItem (.string ['a']) (.string ['b'])]), 4) :=
  ⟨rfl, rfl, rfl⟩

/-- C5: a record key that is not followed by a valid value never yields a
record item (the item production fails with the cursor restored, parse.py
lines 136-143), a ParseError raised by the value production propagates,
and the leftover tokens make the enclosing context raise: the top level
raises when record content stops before end of input (parse.py line 92),
and a record raises when record content stops on a token other than
BRACE_CLOSE (parse.py line 103).  In particular the input of an open
brace followed by a bare key raises a syntax error.  The fuel arguments
follow the fuel flow of the embedding. -/
theorem C5_key_without_value_is_syntax_error :
    loads "\x7b a".toList = .ok (.error (.expected_eoi .BRACE_OPEN)) ∧
    (∀ (toks : List Token) (f p : Nat) (k : AST) (q : Nat),
      parse_record_key toks p = some (k, q) →
      parse_value toks f q = .ok (none, q) →
      parse_record_item toks (f + 1) p = .ok (none, p)) ∧
    (∀ (toks : List Token) (f p : Nat) (k : AST) (q : Nat) (e : PErr),
      parse_record_key toks p = some (k, q) →
      parse_value toks f q = .error e →
      parse_record_item toks (f + 1) p = .error e) ∧
    (∀ (toks : List Token) (f : Nat) (items : List AST) (q : Nat) (t : Token),
      parse_record_content toks f 0 = .ok (items, q) →
      toks[q]? = some t →
      parse toks (f + 1) = .error (.expected_eoi t.kind)) ∧
    (∀ (toks : List Token) (f p : Nat) (t₀ : Token) (items : List AST) (q : Nat) (t : Token),
      paccept toks p .BRACE_OPEN = some (t₀, p + 1) →
      parse_record_content toks f (p + 1) = .ok (items, q) →
      toks[q]? = some t →
      t.kind ≠ .BRACE_CLOSE →
      parse_record toks (f + 1) p = .error (.expected_found .BRACE_CLOSE t.kind)) := by
  refine ⟨rfl, ?_, ?_, ?_, ?_⟩
  · intro toks f p k q hkey hval
    simp only [parse_record_item, hkey, hval]
  · intro toks f p k q e hkey hval
    simp only [parse_record_item, hkey, hval]
  · intro toks f items q t hc hq
    have hlt : q < toks.length := by
      rcases List.getElem?_eq_some.mp hq with ⟨h, _⟩
      exact h
    have hne : ¬(q = toks.length) := by omega
    simp only [parse, hc, hne, if_false, hq]
  · intro toks f p t₀ items q t hacc hc hq hkind
    simp only [parse_record, hacc, hc, pexpect, hq, hkind, if_false]

/-- C5 witness: concrete instantiation of every hypothesis of the
general conjuncts at the token list of the input of an open brace
followed by a bare key and a comma, where the key after the comma has no
value. -/
theorem C5_key_without_value_witness :
    parse_record_item [mkToken .UNQUOTED_STRING false (some ['a'])] 4 0 = .ok (none, 0) ∧
    parse [mkToken .UNQUOTED_STRING false (some ['a'])] 9 = .error (.expected_eoi .UNQUOTED_STRING) ∧
    parse_record
      [mkToken .BRACE_OPEN false none, mkToken .UNQUOTED_STRING false (some ['a'])] 9 0 =
      .error (.expected_found .BRACE_CLOSE .UNQUOTED_STRING) := by
  refine ⟨?_, ?_, ?_⟩
  · exact C5_key_without_value_is_syntax_error.2.1
      [mkToken .UNQUOTED_STRING false (some ['a'])] 3 0 (.string ['a']) 1 rfl rfl
  · exact C5_key_without_value_is_syntax_error.2.2.2.1
      [mkToken .UNQUOTED_STRING false (some ['a'])] 8 [] 0
      (mkToken .UNQUOTED_STRING false (some ['a'])) rfl rfl
  · exact C5_key_without_value_is_syntax_error.2.2.2.2
      [mkToken .BRACE_OPEN false none, mkToken .UNQUOTED_STRING false (some ['a'])] 8 0
      (mkToken .BRACE_OPEN false none) [] 1
      (mkToken .UNQUOTED_STRING false (some ['a'])) rfl rfl rfl (by decide)

/-- C6: newline-as-separator equivalence.  The braced inputs scan and
parse to literally identical top-level results; through the record
production (their form in value position) they yield the same Record with
items (a, b) and (c, d); and the corresponding brace-free documents parse
to identical Documents.  The only difference between the two scans is the
COMMA token versus the leading_newline flag on the following token. -/
theorem C6_newline_comma_equivalence :
    loads "\x7b a b\n c d \x7d".toList = loads "\x7b a b, c d \x7d".toList ∧
    loads "a b\nc d".toList =
      .ok (.ok (.document
        [.recordItem (.string ['a']) (.string ['b']),
         .recordItem (.string ['c']) (.string ['d'])])) ∧
    loads "a b, c d".toList =
      .ok (.ok (.document
        [.recordItem (.string ['a']) (.string ['b']),
         .recordItem (.string ['c']) (.string ['d'])])) ∧
    scan_all "\x7b a b\n c d \x7d".toList =
      .ok [mkToken .BRACE_OPEN false none,
           mkToken .UNQUOTED_STRING false (some ['a']),
           mkToken .UNQUOTED_STRING false (some ['b']),
           mkToken .UNQUOTED_STRING true (some ['c']),
           mkToken .UNQUOTED_STRING false (some ['d']),
           mkToken .BRACE_CLOSE false none] ∧
    scan_all "\x7b a b, c d \x7d".toList =
      .ok [mkToken .BRACE_OPEN false none,
           mkToken .UNQUOTED_STRING false (some ['a']),
           mkToken .UNQUOTED_STRING false (some ['b']),
           mkToken .COMMA false none,
           mkToken .UNQUOTED_STRING false (some ['c']),
           mkToken .UNQUOTED_STRING false (some ['d']),
           mkToken .BRACE_CLOSE false none] ∧
    parse_record
      [mkToken .BRACE_OPEN false none,
       mkToken .UNQUOTED_STRING false (some ['a']),
       mkToken .UNQUOTED_STRING false (some ['b']),
       mkToken .UNQUOTED_STRING true (some ['c']),
       mkToken .UNQUOTED_STRING false (some ['d']),
       mkToken .BRACE_CLOSE false none] 24 0 =
      .ok (some (.record
        [.recordItem (.string ['a']) (.string ['b']),
         .recordItem (.string ['c']) (.string ['d'])]), 6) ∧
    parse_record
      [mkToken .BRACE_OPEN false none,
       mkToken .UNQUOTED_STRING false (some ['a']),
       mkToken .UNQUOTED_STRING false (some ['b']),
       mkToken .COMMA false none,
       mkToken .UNQUOTED_STRING false (some ['c']),
       mkToken .UNQUOTED_STRING false (some ['d']),
       mkToken .BRACE_CLOSE false none] 24 0 =
      .ok (some (.record
        [.recordItem (.string ['a']) (.string ['b']),
         .recordItem (.string ['c']) (.string ['d'])]), 7) :=
  ⟨rfl, rfl, rfl, rfl, rfl, rfl, rfl⟩

/-- C7: the item-separator check consumes a token only when it is an
explicit COMMA; a leading-newline-flagged token satisfies the check
without moving the cursor; and when a separator is present but the
following item fails, the record-content loop stops and returns its items
without raising (parse.py lines 122-126), so a trailing comma before a
closing delimiter parses.  The fuel arguments follow the fuel flow of the
embedding. -/
theorem C7_lazy_separator :
    (∀ (toks : List Token) (p q : Nat), accept_item_separator toks p = (true, q) →
      (∃ t, toks[p]? = some t ∧ t.kind = .COMMA ∧ q = p + 1) ∨
      (∃ t, toks[p]? = some t ∧ t.kind ≠ .COMMA ∧ t.leading_newline = true ∧ q = p)) ∧
    (∀ (toks : List Token) (p : Nat) (t : Token), toks[p]? = some t →
      t.kind ≠ .COMMA → t.leading_newline = true →
      accept_item_separator toks p = (true, p)) ∧
    (∀ (toks : List Token) (f p : Nat) (it : AST) (q q₂ : Nat),
      parse_record_item toks (f + 1) p = .ok (some it, q) →
      accept_item_separator toks q = (true, q₂) →
      parse_record_item toks f q₂ = .ok (none, q₂) →
      parse_record_content toks (f + 2) p = .ok ([it], q₂)) ∧
    loads "a b,".toList =
      .ok (.ok (.document [.recordItem (.string ['a']) (.string ['b'])])) ∧
    loads "k [ x, y, ]".toList =
      .ok (.ok (.document [.recordItem (.string ['k'])
        (.array [.string ['x'], .string ['y']])])) := by
  refine ⟨?_, ?_, ?_, rfl, rfl⟩
  · intro toks p q h
    unfold accept_item_separator at h
    rcases hq : toks[p]? with _ | t
    · rw [hq] at h
      simp at h
    · rw [hq] at h
      try dsimp only at h
      by_cases hk : t.kind = .COMMA
      · rw [if_pos hk] at h
        exact Or.inl ⟨t, rfl, hk, (congrArg Prod.snd h).symm⟩
      · rw [if_neg hk] at h
        exact Or.inr ⟨t, rfl, hk, congrArg Prod.fst h, (congrArg Prod.snd h).symm⟩
  · intro toks p t hq hk hn
    unfold accept_item_separator
    rw [hq]
    dsimp only
    rw [if_neg hk, hn]
  · intro toks f p it q q₂ h1 h2 h3
    simp only [parse_record_content, h1, parse_record_content_loop, h2, h3]

/-!
Reduction lemmas for the character-level scanner loops, needed because
the overlapping literal patterns of the definitions only reduce
definitionally on concrete characters.
-/

/-- Catch-all step of the quoted-string loop: any character other than a
quote, a newline character and a backslash is appended verbatim. -/
lemma scan_quoted_loop_cons (acc : List Char) (c : Char) (rest : List Char)
    (h1 : c ≠ '"') (h2 : c ≠ '\n') (h3 : c ≠ '\r') (h4 : c ≠ '\\') :
    scan_quoted_loop acc (c :: rest) = scan_quoted_loop (acc ++ [c]) rest := by
  rw [scan_quoted_loop.eq_def]
  split
  · simp_all
  · simp_all
  · simp_all
  · simp_all
  · simp_all
  · rename_i h
    simp only [List.cons.injEq] at h
    obtain ⟨rfl, rfl⟩ := h
    rfl

/-- In-line step of the multi-line loop: a character that is not a
newline character is appended verbatim. -/
lemma scan_multiline_aux_cons (acc : List Char) (c : Char) (rest : List Char)
    (h1 : c ≠ '\n') (h2 : c ≠ '\r') :
    scan_multiline_aux true acc (c :: rest) = scan_multiline_aux true (acc ++ [c]) rest := by
  rw [scan_multiline_aux.eq_def]
  split <;> simp_all

/-- Between-lines stop of the multi-line loop: a head character that is
not whitespace and not a greater-than sign ends the multi-line string. -/
lemma scan_multiline_aux_stop (acc : List Char) (s : List Char)
    (h : s = [] ∨ ∃ c cs, s = c :: cs ∧ c ≠ ' ' ∧ c ≠ '\t' ∧ c ≠ '>') :
    scan_multiline_aux false acc s = (acc, s) := by
  rcases h with rfl | ⟨c, cs, rfl, h1, h2, h3⟩
  · rfl
  · rw [scan_multiline_aux.eq_def]
    split
    · simp_all
    · simp_all
    · simp_all
    · simp_all
    · simp_all
    · simp_all
    · simp_all
    · rfl

/-- Step of escape resolution on a character that is not a backslash. -/
lemma escape_string_cons (c : Char) (rest : List Char) (h : c ≠ '\\') :
    escape_string (c :: rest) = c :: escape_string rest := by
  rw [escape_string.eq_def]
  split
  · simp_all
  · rename_i hm
    simp only [List.cons.injEq] at hm
    obtain ⟨rfl, rfl⟩ := hm
    rfl
  · simp_all

/-- Escape resolution is the identity on payloads without a backslash. -/
lemma escape_string_id (l : List Char) (h : '\\' ∉ l) : escape_string l = l := by
  induction l with
  | nil => rfl
  | cons c rest ih =>
    have hc : c ≠ '\\' := fun hcc => h (hcc ▸ List.mem_cons_self ..)
    rw [escape_string_cons c rest hc, ih (fun hm => h (List.mem_cons_of_mem _ hm))]

/-!
Structured inputs for the multi-line string claim: a list of
(whitespace, line) blocks, each line followed by its newline, rendered in
front of a remainder that does not continue the multi-line string.
-/

/-- Render continuation blocks: leading pure whitespace, a greater-than
sign, the line text, its terminating newline. -/
def ml_render : List (List Char × List Char) → List Char → List Char
  | [], rest => rest
  | (w, l) :: more, rest => w ++ '>' :: (l ++ '\n' :: ml_render more rest)

/-- A line text containing no newline characters. -/
def plain_line (l : List Char) : Bool := l.all (fun c => c ≠ '\n' && c ≠ '\r')

/-- Pure whitespace in the sense of scan.py WHITESPACE. -/
def ws_only (w : List Char) : Bool := w.all (fun c => c = ' ' || c = '\t')

/-- A remainder whose first character (if any) neither is whitespace nor
starts another multi-line string line. -/
def stops_ml (rest : List Char) : Prop :=
  rest = [] ∨ ∃ c cs, rest = c :: cs ∧ c ≠ ' ' ∧ c ≠ '\t' ∧ c ≠ '>'

/-- Consuming one line body: the text up to the terminating newline is
appended to the accumulator and the newline is consumed. -/
lemma scan_multiline_aux_line (l : List Char) :
    ∀ acc rest, plain_line l = true →
      scan_multiline_aux true acc (l ++ '\n' :: rest) =
        scan_multiline_aux false (acc ++ l) rest := by
  induction l with
  | nil => intro acc rest _; simp [scan_multiline_aux]
  | cons c l ih =>
    intro acc rest hl
    simp only [plain_line, List.all_cons, Bool.and_eq_true, decide_eq_true_eq,
      bne_iff_ne, ne_eq] at hl
    rw [List.cons_append, scan_multiline_aux_cons acc c _ hl.1.1 hl.1.2]
    have hl2 : plain_line l = true := hl.2
    rw [ih (acc ++ [c]) rest hl2]
    simp

/-- Skipping pure whitespace between lines. -/
lemma scan_multiline_aux_ws (w : List Char) :
    ∀ acc rest, ws_only w = true →
      scan_multiline_aux false acc (w ++ rest) =
        scan_multiline_aux false acc rest := by
  induction w with
  | nil => intro acc rest _; rfl
  | cons c w ih =>
    intro acc rest hw
    simp only [ws_only, List.all_cons, Bool.and_eq_true, Bool.or_eq_true,
      decide_eq_true_eq] at hw
    have hw2 : ws_only w = true := hw.2
    rcases hw.1 with rfl | rfl
    · rw [List.cons_append,
        show scan_multiline_aux false acc (' ' :: (w ++ rest)) =
          scan_multiline_aux false acc (w ++ rest) from rfl,
        ih acc rest hw2]
    · rw [List.cons_append,
        show scan_multiline_aux false acc ('\t' :: (w ++ rest)) =
          scan_multiline_aux false acc (w ++ rest) from rfl,
        ih acc rest hw2]

/-- Main loop of the multi-line scanner over rendered blocks. -/
lemma scan_multiline_aux_render (pairs : List (List Char × List Char)) :
    ∀ acc rest, (∀ p ∈ pairs, ws_only p.1 = true ∧ plain_line p.2 = true) → stops_ml rest →
      scan_multiline_aux false acc (ml_render pairs rest) =
        (acc ++ (pairs.map Prod.snd).flatten, rest) := by
  induction pairs with
  | nil =>
    intro acc rest _ hrest
    simp only [ml_render, List.map_nil, List.flatten_nil, List.append_nil]
    exact scan_multiline_aux_stop acc rest hrest
  | cons p pairs ih =>
    intro acc rest hp hrest
    obtain ⟨w, l⟩ := p
    have h1 := hp (w, l) (List.mem_cons_self ..)
    have h2 : ∀ q ∈ pairs, ws_only q.1 = true ∧ plain_line q.2 = true :=
      fun q hq => hp q (List.mem_cons_of_mem _ hq)
    simp only [ml_render]
    rw [scan_multiline_aux_ws w _ _ h1.1,
      show scan_multiline_aux false acc ('>' :: (l ++ '\n' :: ml_render pairs rest)) =
        scan_multiline_aux true acc (l ++ '\n' :: ml_render pairs rest) from rfl,
      scan_multiline_aux_line l acc _ h1.2, ih (acc ++ l) rest h2 hrest]
    simp

/-- Reduction of scan_one on an input beginning with a greater-than sign:
no leading input is skipped, no punctuation or quoted string matches, and
the multi-line production fires. -/
lemma scan_one_gt (s : List Char) (raw rest : List Char)
    (h : scan_multiline_string ('>' :: s) = some (raw, rest)) :
    scan_one ('>' :: s) = .ok (some (mkToken .MULTILINE_STRING false (some raw)), rest) := by
  have h0 : scan_one ('>' :: s) =
      (match scan_multiline_string ('>' :: s) with
      | some (raw, rest) => .ok (some (mkToken .MULTILINE_STRING false (some raw)), rest)
      | none =>
        match scan_unquoted_string ('>' :: s) with
        | some (raw, rest) => .ok (some (mkToken .UNQUOTED_STRING false (some raw)), rest)
        | none => .error (.unrecognised '>')) := rfl
  rw [h0, h]

/-- C8: one or more consecutive lines introduced by a greater-than sign
scan to a single MULTILINE_STRING token whose raw payload is the
concatenation of the line texts with no inserted separator; a line
continues the string only when, after skipping pure whitespace, the next
character is again a greater-than sign, and the remainder is left
untouched otherwise.  Concretely, two lines foo and bar yield the payload
foobar, while a blank line between them ends the first token. -/
theorem C8_multiline_concatenation :
    (∀ (l : List Char) (pairs : List (List Char × List Char)) (rest : List Char),
      plain_line l = true →
      (∀ p ∈ pairs, ws_only p.1 = true ∧ plain_line p.2 = true) →
      stops_ml rest →
      scan_multiline_string ('>' :: (l ++ '\n' :: ml_render pairs rest)) =
        some (l ++ (pairs.map Prod.snd).flatten, rest) ∧
      scan_one ('>' :: (l ++ '\n' :: ml_render pairs rest)) =
        .ok (some (mkToken .MULTILINE_STRING false
          (some (l ++ (pairs.map Prod.snd).flatten))), rest)) ∧
    scan_all ">foo\n>bar".toList =
      .ok [mkToken .MULTILINE_STRING false (some "foobar".toList)] ∧
    scan_all ">foo\n  >bar".toList =
      .ok [mkToken .MULTILINE_STRING false (some "foobar".toList)] ∧
    scan_all ">foo\n\n>bar".toList =
      .ok [mkToken .MULTILINE_STRING false (some "foo".toList),
           mkToken .MULTILINE_STRING true (some "bar".toList)] := by
  refine ⟨?_, rfl, rfl, rfl⟩
  intro l pairs rest hl hp hrest
  have hstr : scan_multiline_string ('>' :: (l ++ '\n' :: ml_render pairs rest)) =
      some (l ++ (pairs.map Prod.snd).flatten, rest) := by
    show some (scan_multiline_aux true [] (l ++ '\n' :: ml_render pairs rest)) = _
    rw [scan_multiline_aux_line l [] _ hl]
    simp only [List.nil_append]
    rw [scan_multiline_aux_render pairs l rest hp hrest]
  exact ⟨hstr, scan_one_gt _ _ _ hstr⟩

/-- C8 witness: the general conjunct applied to the first line foo, one
continuation block bar and an empty remainder. -/
theorem C8_multiline_concatenation_witness :
    scan_multiline_string ">foo\n>bar\n".toList = some ("foobar".toList, []) ∧
    scan_one ">foo\n>bar\n".toList =
      .ok (some (mkToken .MULTILINE_STRING false (some "foobar".toList)), []) := by
  have h := C8_multiline_concatenation.1 "foo".toList [([], "bar".toList)] []
    (by decide) (by decide) (Or.inl rfl)
  exact ⟨h.1, h.2⟩

/-!
Structured quoted-string contents for the escape claim: a unit is either
the two-character escaped-quote sequence or a single ordinary character.
-/

/-- One unit of quoted-string source text. -/
inductive QUnit where
  | esc
  | chr (c : Char)

/-- Source text of a unit list: esc renders as backslash-quote. -/
def q_render : List QUnit → List Char
  | [] => []
  | .esc :: us => '\\' :: '"' :: q_render us
  | .chr c :: us => c :: q_render us

/-- Decoded text of a unit list: esc decodes to a literal quote, exactly
the decoding performed by the scanner loop at scan.py lines 199-201. -/
def q_decode : List QUnit → List Char
  | [] => []
  | .esc :: us => '"' :: q_decode us
  | .chr c :: us => c :: q_decode us

/-- Ordinary characters of a quoted string: not a quote (which would
close the string), not a newline character (a lexical error), not a
backslash (only the escaped-quote pair is modelled). -/
def q_unit_ok : QUnit → Bool
  | .esc => true
  | .chr c => c ≠ '"' && c ≠ '\n' && c ≠ '\r' && c ≠ '\\'

/-- All units are legal. -/
def q_ok (us : List QUnit) : Bool := us.all q_unit_ok

/-- The quoted-string loop decodes a rendered unit list, consuming the
closing quote. -/
lemma scan_quoted_loop_render (us : List QUnit) :
    ∀ acc rest, q_ok us = true →
      scan_quoted_loop acc (q_render us ++ '"' :: rest) =
        .ok (acc ++ q_decode us, rest) := by
  induction us with
  | nil =>
    intro acc rest _
    simp [q_render, q_decode, scan_quoted_loop]
  | cons u us ih =>
    intro acc rest hok
    simp only [q_ok, List.all_cons, Bool.and_eq_true] at hok
    have hus : q_ok us = true := hok.2
    cases u with
    | esc =>
      rw [show q_render (.esc :: us) ++ '"' :: rest =
        '\\' :: '"' :: (q_render us ++ '"' :: rest) from rfl,
        show scan_quoted_loop acc ('\\' :: '"' :: (q_render us ++ '"' :: rest)) =
          scan_quoted_loop (acc ++ ['"']) (q_render us ++ '"' :: rest) from rfl,
        ih (acc ++ ['"']) rest hus]
      simp [q_decode]
    | chr c =>
      have hc := hok.1
      simp only [q_unit_ok, Bool.and_eq_true, decide_eq_true_eq, bne_iff_ne, ne_eq] at hc
      rw [show q_render (.chr c :: us) ++ '"' :: rest =
        c :: (q_render us ++ '"' :: rest) from rfl,
        scan_quoted_loop_cons acc c _ hc.1.1.1 hc.1.1.2 hc.1.2 hc.2,
        ih (acc ++ [c]) rest hus]
      simp [q_decode]

/-- C9: inside a quoted string the backslash-quote pair decodes to a
literal quote (the only quoted-string escape); and independently, the
Token constructor resolves every literal backslash-n pair in the payload
of every string-bearing token to an actual newline.  Concretely, the
quoted source a backslash-quote b decodes to a quote b, and backslash-n
decodes to a newline in tokens of all three string kinds. -/
theorem C9_escape_handling :
    (∀ (us : List QUnit) (rest : List Char), q_ok us = true →
      scan_quoted_string ('"' :: (q_render us ++ '"' :: rest)) =
        some (.ok (q_decode us, rest))) ∧
    (∀ (k : TokenKind) (lead : Bool) (raw : List Char), k.is_string = true →
      (mkToken k lead (some raw)).spelling = some (escape_string raw)) ∧
    escape_string ['a', '\\', 'n', 'b'] = ['a', '\n', 'b'] ∧
    scan_one "\"a\\\"b\"".toList =
      .ok (some (mkToken .QUOTED_STRING false (some ['a', '"', 'b'])), []) ∧
    (mkToken .QUOTED_STRING false (some ['a', '"', 'b'])).spelling =
      some ['a', '"', 'b'] ∧
    scan_one "\"a\\nb\"".toList =
      .ok (some (⟨.QUOTED_STRING, some ['a', '\n', 'b'], false⟩ : Token), []) ∧
    scan_one "a\\nb".toList =
      .ok (some (⟨.UNQUOTED_STRING, some ['a', '\n', 'b'], false⟩ : Token), []) ∧
    scan_one ">a\\nb".toList =
      .ok (some (⟨.MULTILINE_STRING, some ['a', '\n', 'b'], false⟩ : Token), []) := by
  refine ⟨?_, ?_, rfl, rfl, rfl, rfl, rfl, rfl⟩
  · intro us rest hok
    show some (scan_quoted_loop [] (q_render us ++ '"' :: rest)) = _
    rw [scan_quoted_loop_render us [] rest hok]
    simp
  · intro k lead raw hk
    simp [mkToken, hk]

/-- C9 witness: the general conjuncts applied to the unit list of the
quoted source a backslash-quote b and to a MULTILINE_STRING payload. -/
theorem C9_escape_handling_witness :
    scan_quoted_string "\"a\\\"b\"".toList = some (.ok (['a', '"', 'b'], [])) ∧
    (mkToken .MULTILINE_STRING false (some ['x', '\\', 'n', 'y'])).spelling =
      some ['x', '\n', 'y'] := by
  constructor
  · exact C9_escape_handling.1 [.chr 'a', .esc, .chr 'b'] [] (by decide)
  · exact C9_escape_handling.2.1 .MULTILINE_STRING false ['x', '\\', 'n', 'y'] rfl


/-- C7 witness: concrete instantiation of the hypotheses of the three
general conjuncts. -/
theorem C7_lazy_separator_witness :
    ((∃ t, [mkToken .COMMA false none][0]? = some t ∧ t.kind = .COMMA ∧ 1 = 0 + 1) ∨
     (∃ t, [mkToken .COMMA false none][0]? = some t ∧ t.kind ≠ .COMMA ∧
        t.leading_newline = true ∧ 1 = 0)) ∧
    accept_item_separator [mkToken .UNQUOTED_STRING true (some ['c'])] 0 = (true, 0) ∧
    parse_record_content
      [mkToken .UNQUOTED_STRING false (some ['a']),
       mkToken .UNQUOTED_STRING false (some ['b']),
       mkToken .COMMA false none] 6 0 =
      .ok ([.recordItem (.string ['a']) (.string ['b'])], 3) := by
  refine ⟨?_, ?_, ?_⟩
  · exact C7_lazy_separator.1 [mkToken .COMMA false none] 0 1 rfl
  · exact C7_lazy_separator.2.1 [mkToken .UNQUOTED_STRING true (some ['c'])] 0
      (mkToken .UNQUOTED_STRING true (some ['c'])) rfl (by decide) rfl
  · exact C7_lazy_separator.2.2.1
      [mkToken .UNQUOTED_STRING false (some ['a']),
       mkToken .UNQUOTED_STRING false (some ['b']),
       mkToken .COMMA false none] 4 0
      (.recordItem (.string ['a']) (.string ['b'])) 2 3 rfl rfl rfl

/-!
Path-logic lemmas and claims (C3, C4, C10).
-/

/-- Characterisation of has_path on an addressed node: true exactly when
the node is a String, Record or Array, no ancestor is an Array, and, if
the node is a String, its parent is a RecordItem and the node sits in the
value slot (child index 1). -/
lemma has_path_char (root : AST) (pos : List Nat) (n : AST) (anc : List AST)
    (h : ancestorsOf root pos = some (n, anc)) :
    has_path root pos = some true ↔
      (isValueKind n = true ∧ is_transitive_array_element anc = false ∧
       (isString n = true →
         (∃ k v rest, anc = .recordItem k v :: rest) ∧ pos.getLast? = some 1)) := by
  unfold has_path
  rw [h]
  by_cases ha : is_transitive_array_element anc
  · cases n <;> simp [isValueKind, isString, ha]
  · cases n with
    | string d =>
      simp only [isValueKind, isString, Bool.not_true, Bool.false_or, ha, if_false,
        Bool.false_eq_true, not_false_eq_true, forall_const, true_and]
      rcases anc with _ | ⟨a, rest2⟩
      · simp
      · cases a <;> simp [ha]
    | recordItem k v => simp [isValueKind, isString, ha]
    | record cs => simp [isValueKind, isString, ha]
    | document cs => simp [isValueKind, isString, ha]
    | array cs => simp [isValueKind, isString, ha]

/-- Document of the spec example: key a mapping to an array of the two
strings x and y.  (This exact document is not reachable by parsing, since
the two array elements lack a separator between them; the claim is about
the path logic, which operates on an already built AST.) -/
def exampleArrayDoc : AST :=
  .document [.recordItem (.string ['a']) (.array [.string ['x'], .string ['y']])]

/-- C3: has_path holds exactly when the node is a String, Record or
Array, no ancestor is an Array (equivalently, neither the node nor an
ancestor is an element of an Array), and a String must sit in the value
slot of its parent RecordItem.  On the example document, neither array
element has a path while the Array itself has path a. -/
theorem C3_has_path_exactly :
    (∀ (root : AST) (pos : List Nat) (n : AST) (anc : List AST),
      ancestorsOf root pos = some (n, anc) →
      (has_path root pos = some true ↔
        (isValueKind n = true ∧ is_transitive_array_element anc = false ∧
         (isString n = true →
           (∃ k v rest, anc = .recordItem k v :: rest) ∧ pos.getLast? = some 1)))) ∧
    has_path exampleArrayDoc [0, 1, 0] = some false ∧
    has_path exampleArrayDoc [0, 1, 1] = some false ∧
    has_path exampleArrayDoc [0, 1] = some true ∧
    path exampleArrayDoc [0, 1] = some (some [['a']]) :=
  ⟨has_path_char, rfl, rfl, rfl, rfl⟩

/-- C3 witness: the characterisation applied to the array node of the
example document. -/
theorem C3_has_path_exactly_witness :
    has_path exampleArrayDoc [0, 1] = some true ↔
      (isValueKind (.array [.string ['x'], .string ['y']]) = true ∧
       is_transitive_array_element
         [.recordItem (.string ['a']) (.array [.string ['x'], .string ['y']]),
          exampleArrayDoc] = false ∧
       (isString (.array [.string ['x'], .string ['y']]) = true →
         (∃ k v rest,
           [.recordItem (.string ['a']) (.array [.string ['x'], .string ['y']]),
            exampleArrayDoc] = .recordItem k v :: rest) ∧
         ([0, 1] : List Nat).getLast? = some 1)) :=
  C3_has_path_exactly.1 exampleArrayDoc [0, 1]
    (.array [.string ['x'], .string ['y']])
    [.recordItem (.string ['a']) (.array [.string ['x'], .string ['y']]),
     exampleArrayDoc] rfl

/-- Key text of a RecordItem ancestor (always a String by the RecordItem
constructor assert, ast.py line 137). -/
def key_data : AST → List Char
  | .string d => d
  | _ => []

/-- Merge path stated from the spec words, computed top down along the
address: the key of every RecordItem passed through on the way from the
root to the node, in root-to-node order (so that the bottom-up walk of
ast.py followed by the final reversal must produce exactly this list). -/
def down_keys : AST → List Nat → List (List Char)
  | _, [] => []
  | a, i :: rest =>
    let tail :=
      match (childrenOf a)[i]? with
      | some c => down_keys c rest
      | none => []
    match a with
    | .recordItem k _ => key_data k :: tail
    | _ => tail

/-- Indexing a well-formed child list yields a well-formed child. -/
lemma wfChildren_get (ok : AST → Bool) :
    ∀ (cs : List AST) (i : Nat) (c : AST), wfChildren ok cs = true →
      cs[i]? = some c → ok c = true ∧ wf c = true := by
  intro cs
  induction cs with
  | nil => intro i c _ h2; simp at h2
  | cons x cs ih =>
    intro i c h1 h2
    simp only [wfChildren, Bool.and_eq_true] at h1
    rcases i with _ | j
    · simp only [List.getElem?_cons_zero, Option.some.injEq] at h2
      subst h2
      exact ⟨h1.1.1, h1.1.2⟩
    · exact ih j c h1.2 (by simpa using h2)

/-- A child of a well-formed node is well formed. -/
lemma wf_child (a : AST) (i : Nat) (c : AST) (hwf : wf a = true)
    (h : (childrenOf a)[i]? = some c) : wf c = true := by
  cases a with
  | string d => simp [childrenOf] at h
  | recordItem k v =>
    simp only [wf, Bool.and_eq_true] at hwf
    rcases i with _ | _ | j
    · simp only [childrenOf, List.getElem?_cons_zero, Option.some.injEq] at h
      subst h
      exact hwf.1.2
    · simp only [childrenOf, List.getElem?_cons_succ, List.getElem?_cons_zero,
        Option.some.injEq] at h
      subst h
      exact hwf.2
    · simp [childrenOf] at h
  | record cs => exact (wfChildren_get isRecordItem cs i c (by simpa [wf] using hwf) h).2
  | document cs => exact (wfChildren_get isRecordItem cs i c (by simpa [wf] using hwf) h).2
  | array cs => exact (wfChildren_get isValueKind cs i c (by simpa [wf] using hwf) h).2

/-- Key collection distributes over ancestor-list concatenation. -/
lemma keysUp_append (xs ys : List AST) :
    keysUp (xs ++ ys) = (keysUp xs).bind (fun a => (keysUp ys).map (fun b => a ++ b)) := by
  induction xs with
  | nil =>
    rcases hy : keysUp ys with _ | ly <;> simp [keysUp, hy]
  | cons x xs ih =>
    cases x with
    | string d => simpa [keysUp] using ih
    | recordItem k v =>
      cases k with
      | string d =>
        simp only [List.cons_append, keysUp, ih]
        rcases hx : keysUp xs with _ | lx <;> rcases hy : keysUp ys with _ | ly <;>
          simp [keysUp, ih, hx, hy]
      | recordItem k2 v2 => simp [keysUp]
      | record cs => simp [keysUp]
      | document cs => simp [keysUp]
      | array cs => simp [keysUp]
    | record cs => simpa [keysUp] using ih
    | document cs => simpa [keysUp] using ih
    | array cs => simpa [keysUp] using ih

/-- On a well-formed tree, the bottom-up key collection over the
ancestors of an addressed node is exactly the reversed top-down key
list. -/
lemma keysUp_ancestors :
    ∀ (pos : List Nat) (root n : AST) (anc : List AST),
      wf root = true →
      ancestorsOf root pos = some (n, anc) →
      keysUp anc = some (down_keys root pos).reverse := by
  intro pos
  induction pos with
  | nil =>
    intro root n anc _ h
    simp only [ancestorsOf, Option.some.injEq, Prod.mk.injEq] at h
    rw [← h.2]
    simp [keysUp, down_keys]
  | cons i rest ih =>
    intro root n anc hwf h
    unfold ancestorsOf at h
    rcases hc : (childrenOf root)[i]? with _ | c <;> rw [hc] at h
    · simp at h
    · try dsimp only at h
      rcases ha : ancestorsOf c rest with _ | p <;> rw [ha] at h
      · simp at h
      · obtain ⟨n2, anc2⟩ := p
        simp only [Option.some.injEq, Prod.mk.injEq] at h
        obtain ⟨rfl, rfl⟩ := h
        have hwfc : wf c = true := wf_child root i c hwf hc
        rw [keysUp_append, ih c n2 anc2 hwfc ha]
        cases root with
        | string d => simp [childrenOf] at hc
        | recordItem k v =>
          have hk : isString k = true := by
            simp only [wf, Bool.and_eq_true] at hwf
            exact hwf.1.1.1
          cases k with
          | string d =>
            simp only [down_keys, hc, key_data, keysUp, List.reverse_cons]
            simp
          | recordItem k2 v2 => simp [isString] at hk
          | record cs => simp [isString] at hk
          | document cs => simp [isString] at hk
          | array cs => simp [isString] at hk
        | record cs =>
          simp only [down_keys, hc, keysUp]
          simp
        | document cs =>
          simp only [down_keys, hc, keysUp]
          simp
        | array cs =>
          simp only [down_keys, hc, keysUp]
          simp

/-- Document of the nested example: key a mapping to a record that maps
key b to the string x. -/
def exampleNestedDoc : AST :=
  .document [.recordItem (.string ['a'])
    (.record [.recordItem (.string ['b']) (.string ['x'])])]

/-- C4: whenever the merge path is defined, it equals the reversal of
the bottom-up walk that appends the key of every RecordItem ancestor,
that is, the top-down key list along the node's address; concretely, in
the nested example document the String x node has path (a, b).  (The
document itself parses from the brace-free top-level source a then a
braced record b x.) -/
theorem C4_path_reversed_walk :
    (∀ (root : AST) (pos : List Nat) (n : AST) (anc : List AST),
      wf root = true →
      ancestorsOf root pos = some (n, anc) →
      has_path root pos = some true →
      path root pos = some (some (down_keys root pos))) ∧
    loads "a \x7b b \"x\" \x7d".toList = .ok (.ok exampleNestedDoc) ∧
    wf exampleNestedDoc = true ∧
    has_path exampleNestedDoc [0, 1, 0, 1] = some true ∧
    path exampleNestedDoc [0, 1, 0, 1] = some (some [['a'], ['b']]) ∧
    down_keys exampleNestedDoc [0, 1, 0, 1] = [['a'], ['b']] := by
  refine ⟨?_, rfl, rfl, rfl, rfl, rfl⟩
  intro root pos n anc hwf h hp
  unfold path
  rw [hp, h]
  dsimp only
  rw [keysUp_ancestors pos root n anc hwf h]
  simp

/-- C4 witness: the general conjunct applied to the String x node of the
nested example document. -/
theorem C4_path_reversed_walk_witness :
    path exampleNestedDoc [0, 1, 0, 1] =
      some (some (down_keys exampleNestedDoc [0, 1, 0, 1])) :=
  C4_path_reversed_walk.1 exampleNestedDoc [0, 1, 0, 1] (.string ['x'])
    [.recordItem (.string ['b']) (.string ['x']),
     .record [.recordItem (.string ['b']) (.string ['x'])],
     .recordItem (.string ['a'])
       (.record [.recordItem (.string ['b']) (.string ['x'])]),
     exampleNestedDoc] rfl rfl rfl

/-- Well-formed child lists concatenate. -/
lemma wfChildren_append (ok : AST → Bool) (xs ys : List AST) :
    wfChildren ok (xs ++ ys) = (wfChildren ok xs && wfChildren ok ys) := by
  induction xs with
  | nil => simp [wfChildren]
  | cons x xs ih => simp [wfChildren, ih, Bool.and_assoc]

/-- Keys accepted by parse_record_key are well-formed String nodes. -/
lemma parse_record_key_wf (toks : List Token) (p : Nat) (k : AST) (q : Nat)
    (h : parse_record_key toks p = some (k, q)) : isString k = true ∧ wf k = true := by
  unfold parse_record_key at h
  rcases h1 : paccept toks p .QUOTED_STRING with _ | t1 <;> rw [h1] at h
  · try dsimp only at h
    rcases h2 : paccept toks p .UNQUOTED_STRING with _ | t2 <;> rw [h2] at h
    · simp at h
    · obtain ⟨t, q2⟩ := t2
      try dsimp only at h
      simp only [Option.some.injEq, Prod.mk.injEq] at h
      obtain ⟨rfl, rfl⟩ := h
      exact ⟨rfl, rfl⟩
  · obtain ⟨t, q1⟩ := t1
    try dsimp only at h
    simp only [Option.some.injEq, Prod.mk.injEq] at h
    obtain ⟨rfl, rfl⟩ := h
    exact ⟨rfl, rfl⟩

/-- Every AST fragment built by a parser production is well formed, by
strong induction over the fuel of the embedding: values, records and
arrays are well-formed value-kind nodes, record items are well-formed
RecordItems, and content lists consist of well-formed children of the
right class. -/
lemma parser_wf : ∀ fuel : Nat,
    (∀ toks p v q, parse_value toks fuel p = .ok (some v, q) →
      isValueKind v = true ∧ wf v = true) ∧
    (∀ toks p r q, parse_record toks fuel p = .ok (some r, q) →
      isValueKind r = true ∧ wf r = true) ∧
    (∀ toks p a q, parse_array toks fuel p = .ok (some a, q) →
      isValueKind a = true ∧ wf a = true) ∧
    (∀ toks p it q, parse_record_item toks fuel p = .ok (some it, q) →
      isRecordItem it = true ∧ wf it = true) ∧
    (∀ toks p items q, parse_record_content toks fuel p = .ok (items, q) →
      wfChildren isRecordItem items = true) ∧
    (∀ toks p acc items q, parse_record_content_loop toks fuel p acc = .ok (items, q) →
      wfChildren isRecordItem acc = true → wfChildren isRecordItem items = true) ∧
    (∀ toks p vals q, parse_array_content toks fuel p = .ok (vals, q) →
      wfChildren isValueKind vals = true) ∧
    (∀ toks p acc vals q, parse_array_content_loop toks fuel p acc = .ok (vals, q) →
      wfChildren isValueKind acc = true → wfChildren isValueKind vals = true) := by
  intro fuel
  induction fuel with
  | zero =>
    refine ⟨?_, ?_, ?_, ?_, ?_, ?_, ?_, ?_⟩
    · intro toks p v q h; simp [parse_value] at h
    · intro toks p r q h; simp [parse_record] at h
    · intro toks p a q h; simp [parse_array] at h
    · intro toks p it q h; simp [parse_record_item] at h
    · intro toks p items q h; simp [parse_record_content] at h
    · intro toks p acc items q h; simp [parse_record_content_loop] at h
    · intro toks p vals q h; simp [parse_array_content] at h
    · intro toks p acc vals q h; simp [parse_array_content_loop] at h
  | succ f ih =>
    obtain ⟨ihv, ihr, iha, ihi, ihc, ihcl, ihac, ihacl⟩ := ih
    refine ⟨?_, ?_, ?_, ?_, ?_, ?_, ?_, ?_⟩
    · -- parse_value
      intro toks p v q h
      simp only [parse_value] at h
      rcases h1 : paccept toks p .QUOTED_STRING with _ | t1 <;> rw [h1] at h
      case some =>
        obtain ⟨t, q1⟩ := t1
        try dsimp only at h
        simp only [Except.ok.injEq, Prod.mk.injEq, Option.some.injEq] at h
        obtain ⟨rfl, rfl⟩ := h
        exact ⟨rfl, rfl⟩
      try dsimp only at h
      rcases h2 : paccept toks p .UNQUOTED_STRING with _ | t2 <;> rw [h2] at h
      case some =>
        obtain ⟨t, q2⟩ := t2
        try dsimp only at h
        simp only [Except.ok.injEq, Prod.mk.injEq, Option.some.injEq] at h
        obtain ⟨rfl, rfl⟩ := h
        exact ⟨rfl, rfl⟩
      try dsimp only at h
      rcases h3 : paccept toks p .MULTILINE_STRING with _ | t3 <;> rw [h3] at h
      case some =>
        obtain ⟨t, q3⟩ := t3
        try dsimp only at h
        simp only [Except.ok.injEq, Prod.mk.injEq, Option.some.injEq] at h
        obtain ⟨rfl, rfl⟩ := h
        exact ⟨rfl, rfl⟩
      try dsimp only at h
      rcases h4 : parse_record toks f p with e | rp <;> rw [h4] at h
      case error => simp at h
      obtain ⟨orr, qr⟩ := rp
      try dsimp only at h
      rcases orr with _ | r
      · try dsimp only at h
        rcases h5 : parse_array toks f p with e | ap <;> rw [h5] at h
        case error => simp at h
        obtain ⟨oa, qa⟩ := ap
        try dsimp only at h
        rcases oa with _ | a
        · simp at h
        · simp only [Except.ok.injEq, Prod.mk.injEq, Option.some.injEq] at h
          obtain ⟨rfl, rfl⟩ := h
          exact iha toks p a qa h5
      · simp only [Except.ok.injEq, Prod.mk.injEq, Option.some.injEq] at h
        obtain ⟨rfl, rfl⟩ := h
        exact ihr toks p r qr h4
    · -- parse_record
      intro toks p r q h
      simp only [parse_record] at h
      rcases h1 : paccept toks p .BRACE_OPEN with _ | bp <;> rw [h1] at h
      case none => simp at h
      obtain ⟨t1, q1⟩ := bp
      try dsimp only at h
      rcases h2 : parse_record_content toks f q1 with e | cp <;> rw [h2] at h
      case error => simp at h
      obtain ⟨items, q2⟩ := cp
      try dsimp only at h
      rcases h3 : pexpect toks q2 .BRACE_CLOSE with e | q3 <;> rw [h3] at h
      case error => simp at h
      try dsimp only at h
      simp only [Except.ok.injEq, Prod.mk.injEq, Option.some.injEq] at h
      obtain ⟨rfl, rfl⟩ := h
      refine ⟨rfl, ?_⟩
      show wfChildren isRecordItem items = true
      exact ihc toks q1 items q2 h2
    · -- parse_array
      intro toks p a q h
      simp only [parse_array] at h
      rcases h1 : paccept toks p .BRACK_OPEN with _ | bp <;> rw [h1] at h
      case none => simp at h
      obtain ⟨t1, q1⟩ := bp
      try dsimp only at h
      rcases h2 : parse_array_content toks f q1 with e | cp <;> rw [h2] at h
      case error => simp at h
      obtain ⟨vals, q2⟩ := cp
      try dsimp only at h
      rcases h3 : pexpect toks q2 .BRACK_CLOSE with e | q3 <;> rw [h3] at h
      case error => simp at h
      try dsimp only at h
      simp only [Except.ok.injEq, Prod.mk.injEq, Option.some.injEq] at h
      obtain ⟨rfl, rfl⟩ := h
      refine ⟨rfl, ?_⟩
      show wfChildren isValueKind vals = true
      exact ihac toks q1 vals q2 h2
    · -- parse_record_item
      intro toks p it q h
      simp only [parse_record_item] at h
      rcases h1 : parse_record_key toks p with _ | kp <;> rw [h1] at h
      case none => simp at h
      obtain ⟨k, q1⟩ := kp
      try dsimp only at h
      rcases h2 : parse_value toks f q1 with e | vp <;> rw [h2] at h
      case error => simp at h
      obtain ⟨ov, q2⟩ := vp
      try dsimp only at h
      rcases ov with _ | v
      · simp at h
      · simp only [Except.ok.injEq, Prod.mk.injEq, Option.some.injEq] at h
        obtain ⟨rfl, rfl⟩ := h
        have hk := parse_record_key_wf toks p k q1 h1
        have hv := ihv toks q1 v q2 h2
        refine ⟨rfl, ?_⟩
        show (isString k && isValueKind v && wf k && wf v) = true
        simp [hk.1, hk.2, hv.1, hv.2]
    · -- parse_record_content
      intro toks p items q h
      simp only [parse_record_content] at h
      rcases h1 : parse_record_item toks f p with e | ip <;> rw [h1] at h
      case error => simp at h
      obtain ⟨oi, q1⟩ := ip
      try dsimp only at h
      rcases oi with _ | it
      · try dsimp only at h
        simp only [Except.ok.injEq, Prod.mk.injEq] at h
        obtain ⟨rfl, rfl⟩ := h
        rfl
      · try dsimp only at h
        have hit := ihi toks p it q1 h1
        exact ihcl toks q1 [it] items q h (by simp [wfChildren, hit.1, hit.2])
    · -- parse_record_content_loop
      intro toks p acc items q h hacc
      simp only [parse_record_content_loop] at h
      rcases h1 : accept_item_separator toks p with ⟨b, q1⟩
      rw [h1] at h
      rcases b
      · try dsimp only at h
        simp only [Except.ok.injEq, Prod.mk.injEq] at h
        obtain ⟨rfl, rfl⟩ := h
        exact hacc
      · try dsimp only at h
        rcases h2 : parse_record_item toks f q1 with e | ip <;> rw [h2] at h
        case error => simp at h
        obtain ⟨oi, q2⟩ := ip
        try dsimp only at h
        rcases oi with _ | it
        · try dsimp only at h
          simp only [Except.ok.injEq, Prod.mk.injEq] at h
          obtain ⟨rfl, rfl⟩ := h
          exact hacc
        · try dsimp only at h
          have hit := ihi toks q1 it q2 h2
          refine ihcl toks q2 (acc ++ [it]) items q h ?_
          rw [wfChildren_append]
          simp [wfChildren, hacc, hit.1, hit.2]
    · -- parse_array_content
      intro toks p vals q h
      simp only [parse_array_content] at h
      rcases h1 : parse_value toks f p with e | vp <;> rw [h1] at h
      case error => simp at h
      obtain ⟨ov, q1⟩ := vp
      try dsimp only at h
      rcases ov with _ | v
      · try dsimp only at h
        simp only [Except.ok.injEq, Prod.mk.injEq] at h
        obtain ⟨rfl, rfl⟩ := h
        rfl
      · try dsimp only at h
        have hv := ihv toks p v q1 h1
        exact ihacl toks q1 [v] vals q h (by simp [wfChildren, hv.1, hv.2])
    · -- parse_array_content_loop
      intro toks p acc vals q h hacc
      simp only [parse_array_content_loop] at h
      rcases h1 : accept_item_separator toks p with ⟨b, q1⟩
      rw [h1] at h
      rcases b
      · try dsimp only at h
        simp only [Except.ok.injEq, Prod.mk.injEq] at h
        obtain ⟨rfl, rfl⟩ := h
        exact hacc
      · try dsimp only at h
        rcases h2 : parse_value toks f q1 with e | vp <;> rw [h2] at h
        case error => simp at h
        obtain ⟨ov, q2⟩ := vp
        try dsimp only at h
        rcases ov with _ | v
        · try dsimp only at h
          simp only [Except.ok.injEq, Prod.mk.injEq] at h
          obtain ⟨rfl, rfl⟩ := h
          exact hacc
        · try dsimp only at h
          have hv := ihv toks q1 v q2 h2
          refine ihacl toks q2 (acc ++ [v]) vals q h ?_
          rw [wfChildren_append]
          simp [wfChildren, hacc, hv.1, hv.2]

/-- A successful top-level parse yields a well-formed Document. -/
lemma parse_wf (toks : List Token) (fuel : Nat) (d : AST)
    (h : parse toks fuel = .ok d) :
    ∃ items, d = .document items ∧ wf d = true := by
  cases fuel with
  | zero => simp [parse] at h
  | succ f =>
    simp only [parse] at h
    rcases h1 : parse_record_content toks f 0 with e | cp <;> rw [h1] at h
    case error => simp at h
    obtain ⟨items, q⟩ := cp
    try dsimp only at h
    by_cases hq : q = toks.length
    · rw [if_pos hq] at h
      simp only [Except.ok.injEq] at h
      subst h
      refine ⟨items, rfl, ?_⟩
      show wfChildren isRecordItem items = true
      exact (parser_wf f).2.2.2.2.1 toks 0 items q h1
    · rw [if_neg hq] at h
      rcases hqq : toks[q]? with _ | t <;> rw [hqq] at h <;> simp at h

/-- A defined has_path presupposes a resolvable address. -/
lemma has_path_some_anc (root : AST) (pos : List Nat) (b : Bool)
    (h : has_path root pos = some b) :
    ∃ n anc, ancestorsOf root pos = some (n, anc) := by
  unfold has_path at h
  rcases ha : ancestorsOf root pos with _ | p
  · rw [ha] at h; simp at h
  · obtain ⟨n0, anc0⟩ := p
    exact ⟨n0, anc0, rfl⟩

/-- The ancestor list is as long as the address. -/
lemma ancestorsOf_length : ∀ (pos : List Nat) (root n : AST) (anc : List AST),
    ancestorsOf root pos = some (n, anc) → anc.length = pos.length := by
  intro pos
  induction pos with
  | nil =>
    intro root n anc h
    simp only [ancestorsOf, Option.some.injEq, Prod.mk.injEq] at h
    rw [← h.2]
    rfl
  | cons i rest ih =>
    intro root n anc h
    unfold ancestorsOf at h
    rcases hc : (childrenOf root)[i]? with _ | c <;> rw [hc] at h
    · simp at h
    · try dsimp only at h
      rcases ha : ancestorsOf c rest with _ | p <;> rw [ha] at h
      · simp at h
      · obtain ⟨n2, anc2⟩ := p
        simp only [Option.some.injEq, Prod.mk.injEq] at h
        obtain ⟨rfl, rfl⟩ := h
        simp [ih c n2 anc2 ha]

/-- All ancestors of a node of a well-formed tree are well formed. -/
lemma ancestorsOf_wf : ∀ (pos : List Nat) (root n : AST) (anc : List AST),
    ancestorsOf root pos = some (n, anc) → wf root = true →
    ∀ a ∈ anc, wf a = true := by
  intro pos
  induction pos with
  | nil =>
    intro root n anc h _ a hmem
    simp only [ancestorsOf, Option.some.injEq, Prod.mk.injEq] at h
    rw [← h.2] at hmem
    simp at hmem
  | cons i rest ih =>
    intro root n anc h hwf a hmem
    unfold ancestorsOf at h
    rcases hc : (childrenOf root)[i]? with _ | c <;> rw [hc] at h
    · simp at h
    · try dsimp only at h
      rcases ha : ancestorsOf c rest with _ | p <;> rw [ha] at h
      · simp at h
      · obtain ⟨n2, anc2⟩ := p
        simp only [Option.some.injEq, Prod.mk.injEq] at h
        obtain ⟨rfl, rfl⟩ := h
        rcases List.mem_append.mp hmem with hmem2 | hmem2
        · exact ih c n2 anc2 ha (wf_child root i c hwf hc) a hmem2
        · rw [List.mem_singleton.mp hmem2]
          exact hwf

/-- The first ancestor (the parent) holds the node among its children. -/
lemma ancestorsOf_parent : ∀ (pos : List Nat) (root n : AST) (anc : List AST),
    ancestorsOf root pos = some (n, anc) →
    ∀ (par : AST) (rest2 : List AST), anc = par :: rest2 →
    ∃ i : Nat, (childrenOf par)[i]? = some n := by
  intro pos
  induction pos with
  | nil =>
    intro root n anc h par rest2 heq
    simp only [ancestorsOf, Option.some.injEq, Prod.mk.injEq] at h
    rw [← h.2] at heq
    simp at heq
  | cons i rest ih =>
    intro root n anc h par rest2 heq
    unfold ancestorsOf at h
    rcases hc : (childrenOf root)[i]? with _ | c <;> rw [hc] at h
    · simp at h
    · try dsimp only at h
      rcases ha : ancestorsOf c rest with _ | p <;> rw [ha] at h
      · simp at h
      · obtain ⟨n2, anc2⟩ := p
        simp only [Option.some.injEq, Prod.mk.injEq] at h
        obtain ⟨rfl, rfl⟩ := h
        rcases anc2 with _ | ⟨a2, as2⟩
        · have hl := ancestorsOf_length rest c n2 [] ha
          have hrest : rest = [] := by
            cases rest
            · rfl
            · simp at hl
          subst hrest
          simp only [ancestorsOf, Option.some.injEq, Prod.mk.injEq] at ha
          simp only [List.nil_append, List.cons.injEq] at heq
          rw [← heq.1, ← ha.1]
          exact ⟨i, hc⟩
        · simp only [List.cons_append, List.cons.injEq] at heq
          obtain ⟨rfl, rfl⟩ := heq
          exact ih c n2 (a2 :: as2) ha a2 as2 rfl

/-- C10: the Document root of a successful parse has no merge path
(has_path is False and path is None), and no node of a parse-produced
tree has an empty merge path: every node with a path has at least one
RecordItem ancestor contributing a key. -/
theorem C10_document_root_no_empty_path :
    ∀ (toks : List Token) (fuel : Nat) (d : AST), parse toks fuel = .ok d →
      has_path d [] = some false ∧ path d [] = some none ∧
      (∀ (pos : List Nat) (l : List (List Char)), path d pos = some (some l) → l ≠ []) := by
  intro toks fuel d h
  obtain ⟨items, rfl, hwf⟩ := parse_wf toks fuel d h
  refine ⟨rfl, rfl, ?_⟩
  intro pos l hp
  unfold path at hp
  rcases hhp : has_path (.document items) pos with _ | b <;> rw [hhp] at hp
  · simp at hp
  · rcases b
    · simp at hp
    · dsimp only at hp
      obtain ⟨n, anc, ha⟩ := has_path_some_anc _ pos true hhp
      rw [ha] at hp
      dsimp only at hp
      rcases hk : keysUp anc with _ | lk <;> rw [hk] at hp
      · simp at hp
      · simp only [Option.some.injEq] at hp
        subst hp
        have hchar := (has_path_char _ pos n anc ha).mp hhp
        intro hnil
        have hlk : lk = [] := by simpa using hnil
        subst hlk
        rcases pos with _ | ⟨i, rest⟩
        · simp only [ancestorsOf, Option.some.injEq, Prod.mk.injEq] at ha
          rw [← ha.1] at hchar
          simp [isValueKind] at hchar
        · have hlen := ancestorsOf_length _ _ _ _ ha
          rcases anc with _ | ⟨par, rest2⟩
          · simp at hlen
          · obtain ⟨j, hj⟩ := ancestorsOf_parent _ _ _ _ ha par rest2 rfl
            have hwfpar : wf par = true :=
              ancestorsOf_wf _ _ _ _ ha hwf par (List.mem_cons_self ..)
            cases par with
            | string d2 => simp [childrenOf] at hj
            | recordItem k v =>
              cases k with
              | string d2 => simp [keysUp] at hk
              | recordItem k2 v2 => simp [keysUp] at hk
              | record cs => simp [keysUp] at hk
              | document cs => simp [keysUp] at hk
              | array cs => simp [keysUp] at hk
            | record cs =>
              have hn := wfChildren_get isRecordItem cs j n
                (by simpa [wf] using hwfpar) (by simpa [childrenOf] using hj)
              have hval := hchar.1
              cases n <;> simp [isRecordItem] at hn
              simp [isValueKind] at hval
            | document cs =>
              have hn := wfChildren_get isRecordItem cs j n
                (by simpa [wf] using hwfpar) (by simpa [childrenOf] using hj)
              have hval := hchar.1
              cases n <;> simp [isRecordItem] at hn
              simp [isValueKind] at hval
            | array cs =>
              have harr := hchar.2.1
              simp [is_transitive_array_element, isArray] at harr

/-- C10 witness: the theorem applied to the parse of the two-token input
a b, with the nonempty-path conjunct instantiated at the value node. -/
theorem C10_document_root_no_empty_path_witness :
    has_path (.document [.recordItem (.string ['a']) (.string ['b'])]) [] = some false ∧
    path (.document [.recordItem (.string ['a']) (.string ['b'])]) [] = some none ∧
    ([['a']] : List (List Char)) ≠ [] := by
  have h := C10_document_root_no_empty_path
    [mkToken .UNQUOTED_STRING false (some ['a']),
     mkToken .UNQUOTED_STRING false (some ['b'])]
    16 (.document [.recordItem (.string ['a']) (.string ['b'])]) rfl
  exact ⟨h.1, h.2.1, h.2.2 [0, 1] [['a']] rfl⟩

end Userconf
